import Mathlib

/-!
Verification of the Azure Blob Storage quick-start client
(QuickStartGoingWithAzureStorageBlob, `src/main.go`).

The repository orchestrates a blob-storage workflow: load credentials,
create a container, upload a file in blocks, list the blobs with a
paginated marker loop, download the blob through a retrying stream, and
clean up after an interactive gate.  The program logic in `main.go` is
embedded directly as a trace-producing step sequence; the
upload/download/pagination machinery that `main.go` delegates to the
external SDK is modelled from the specification's contracts and marked
as such.
-/

namespace AzureQuickStart

/-! ### Errors and `handleErrors` (src/main.go, lines 31-42) -/

/-- `azblob.ServiceCodeContainerAlreadyExists`: the service code string
compared against in `handleErrors`. -/
def serviceCodeContainerAlreadyExists : String := "ContainerAlreadyExists"

/-- A Go `error` value as observed by `handleErrors`: either an
`azblob.StorageError` (the type assertion succeeds) carrying its
`ServiceCode()` string, or any other error with its message.  A `nil`
error is `Option.none` at use sites. -/
inductive GoError where
  | storageError (serviceCode : String)
  | plainError (msg : String)
  deriving DecidableEq, Repr

/-- What `handleErrors` does with its argument: return normally to the
caller, or terminate the process (`log.Fatal`). -/
inductive HandleResult where
  | returned
  | fatalExit
  deriving DecidableEq, Repr

/-- `handleErrors` (src/main.go lines 31-42): a `nil` error returns; an
`azblob.StorageError` whose service code is `ContainerAlreadyExists`
prints a message and returns; every other non-nil error hits
`log.Fatal`. -/
def handleErrors : Option GoError → HandleResult
  | none => .returned
  | some (.storageError sc) =>
      if sc = serviceCodeContainerAlreadyExists then .returned else .fatalExit
  | some (.plainError _) => .fatalExit

/-! ### Block chunking (Blob Upload Workflow, spec-modelled)

`azblob.UploadFileToBlockBlob` is SDK code not present in `src/`; it is
modelled from the spec's Blob Upload Workflow contract.  Payload bytes
are modelled as list elements; chunking recurses with explicit fuel
bounded by the list length, which is exact when the block size is
positive. -/

/-- Split `l` into contiguous chunks of at most `B` elements, with
explicit fuel (each step consumes at least one element when `0 < B`). -/
def chunkFuel (B : Nat) : Nat → List α → List (List α)
  | 0, _ => []
  | _, [] => []
  | fuel + 1, l@(_ :: _) => l.take B :: chunkFuel B fuel (l.drop B)

/-- Modelled from the spec: "split byteSource into ordered blocks of at
most `blockSize` bytes". -/
def chunksOf (B : Nat) (l : List α) : List (List α) :=
  chunkFuel B l.length l

/-- The single-request upload threshold: 256MB (the `put-blob` limit
noted in src/main.go's comments and the spec). -/
def blockBlobMaxUploadBlobBytes : Nat := 256 * 1024 * 1024

/-- The options struct passed to `UploadFileToBlockBlob` in main.go. -/
structure UploadToBlockBlobOptions where
  blockSize : Nat
  parallelism : Nat
  deriving DecidableEq, Repr

/-- The request shape an upload resolves to: one direct `put-blob`
write, or a staged sequence of blocks committed by a block list. -/
inductive UploadPlan (α : Type) where
  | singleShot (data : List α)
  | stagedBlocks (blockList : List (List α))
  deriving DecidableEq, Repr

/-- Modelled from the spec: "if total size ≤ a single-request threshold
(service-defined, e.g. 256MB), issue one direct write.  Otherwise:
split byteSource into ordered blocks of at most `blockSize` bytes ...
issue one commit request with the block list in original order." -/
def uploadFileToBlockBlob (data : List α) (o : UploadToBlockBlobOptions) :
    UploadPlan α :=
  if data.length ≤ blockBlobMaxUploadBlobBytes then .singleShot data
  else .stagedBlocks (chunksOf o.blockSize data)

/-- The byte content a plan commits under the blob name. -/
def committedContent : UploadPlan α → List α
  | .singleShot d => d
  | .stagedBlocks bl => bl.flatten

/-! ### Staging under an arbitrary completion order (spec-modelled)

Modelled from the spec: blocks are "uploaded concurrently with a
bounded worker pool of width `parallelism` (no ordering guarantee on
completion, only on final commit)".  A concurrent pool of any width
delivers the block uploads in some permutation of the block indices;
the staging area records blocks in completion order, and the final
commit reads them back in original index order. -/

/-- The staging area after all uploads finish: pairs `(index, block)`
in completion order. -/
def stageBlocks (blocks : List (List α)) (completionOrder : List Nat) :
    List (Nat × List α) :=
  completionOrder.filterMap (fun i => (blocks.get? i).map (fun b => (i, b)))

/-- Fetch the staged block for index `i`. -/
def lookupStaged (staged : List (Nat × List α)) (i : Nat) : Option (List α) :=
  (staged.find? (fun p => p.1 == i)).map (fun p => p.2)

/-- Assemble staged blocks following a list of indices; fails if any
index was never staged. -/
def collectBlocks (staged : List (Nat × List α)) :
    List Nat → Option (List (List α))
  | [] => some []
  | i :: rest =>
      match lookupStaged staged i, collectBlocks staged rest with
      | some b, some bs => some (b :: bs)
      | _, _ => none

/-- Modelled from the spec: the commit request's block list is in
original order (`0, 1, ..., n-1`) regardless of completion order. -/
def commitBlockList (blocks : List (List α)) (completionOrder : List Nat) :
    Option (List (List α)) :=
  collectBlocks (stageBlocks blocks completionOrder) (List.range blocks.length)

/-! ### Blob store, download range and retrying stream (spec-modelled)

`blobURL.Download` and the retry reader are SDK code not present in
`src/`; they are modelled from the spec's Blob Download Workflow. -/

/-- `azblob.CountToEnd = 0`: the count value meaning "to the end". -/
def countToEnd : Int := 0

/-- The remote blob namespace: blob name to committed byte content. -/
def BlobStore (α : Type) : Type := String → Option (List α)

/-- Upload workflow end-to-end: the named blob now holds the committed
content of the upload plan; other blobs are untouched. -/
def uploadBlob (store : BlobStore α) (name : String) (data : List α)
    (o : UploadToBlockBlobOptions) : BlobStore α :=
  fun n =>
    if n = name then some (committedContent (uploadFileToBlockBlob data o))
    else store n

/-- Modelled from the spec: `Download(containerHandle, blobName,
rangeStart, rangeLength)` returns the requested byte range of the
committed content; a count of `CountToEnd` (0) means to the end. -/
def downloadRange (store : BlobStore α) (name : String) (offset : Nat)
    (count : Int) : Option (List α) :=
  (store name).map (fun c =>
    if count = countToEnd then c.drop offset
    else (c.drop offset).take count.toNat)

/-- Modelled from the spec: the retry reader re-issues the range
request after a mid-read connection drop, resuming from the last
delivered offset.  `drops` lists, for each connection failure in order,
how many bytes that attempt delivered before failing; after the listed
failures the next attempt reads to completion.  Each re-issue consumes
one unit of the remaining retry budget; a drop with no budget left
fails the download. -/
def retryReadLoop (content : List α) :
    List Nat → Nat → Nat → List α → Option (List α)
  | [], _, offset, acc => some (acc ++ content.drop offset)
  | d :: rest, budget, offset, acc =>
      let delivered := (content.drop offset).take d
      match budget with
      | 0 => none
      | b + 1 =>
          retryReadLoop content rest b (offset + delivered.length)
            (acc ++ delivered)

/-- Reading the retry stream to completion: start at offset 0 with an
empty buffer and the full retry budget (`MaxRetryRequests`). -/
def readRetryStream (content : List α) (maxRetryRequests : Nat)
    (drops : List Nat) : Option (List α) :=
  retryReadLoop content drops maxRetryRequests 0 []

/-! ### Paginated listing (spec-modelled service, loop from src/main.go)

The marker loop at src/main.go lines 112-125 drives
`ListBlobsFlatSegment`, which is SDK/service code not present in
`src/` and is modelled from the spec's pagination contract. -/

/-- `azblob.Marker`: wraps an optional string pointer.  `none` models
the zero `Marker{}` (nil `Val`); `some none` models a pointer to the
empty string (end of listing); `some (some p)` models a non-empty
continuation token, represented by the resume position it encodes. -/
structure Marker where
  val : Option (Option Nat)
  deriving DecidableEq, Repr

/-- `Marker.NotDone()` (azblob): true when `Val == nil || *Val != ""`. -/
def Marker.notDone (m : Marker) : Bool :=
  match m.val with
  | none => true
  | some none => false
  | some (some _) => true

/-- The resume position a marker denotes (initial marker: position 0). -/
def markerStart (m : Marker) : Nat :=
  match m.val with
  | some (some p) => p
  | _ => 0

/-- One page of listing results plus the continuation marker. -/
structure ListBlobsResponse where
  blobItems : List String
  nextMarker : Marker

/-- Modelled from the spec: each `List` call returns a page of at most
`pageSize` names starting at the marker's position over the stable
container contents, plus a continuation marker; the marker is empty
exactly when the page reaches the end. -/
def listBlobsFlatSegment (blobs : List String) (pageSize : Nat)
    (m : Marker) : ListBlobsResponse :=
  let start := markerStart m
  let page := (blobs.drop start).take pageSize
  let next : Marker :=
    if blobs.length ≤ start + pageSize then ⟨some none⟩
    else ⟨some (some (start + pageSize))⟩
  ⟨page, next⟩

/-- The marker loop of src/main.go lines 112-125: start from the zero
marker, call the list operation, process the page, feed the returned
marker back, and stop when `NotDone()` is false.  Fuel bounds the
number of iterations for termination. -/
def listLoopFuel (blobs : List String) (pageSize : Nat) :
    Nat → Marker → List String
  | 0, _ => []
  | fuel + 1, m =>
      if m.notDone then
        let resp := listBlobsFlatSegment blobs pageSize m
        resp.blobItems ++ listLoopFuel blobs pageSize fuel resp.nextMarker
      else []

/-- Running the loop from the zero marker with sufficient fuel. -/
def listAllBlobs (blobs : List String) (pageSize : Nat) : List String :=
  listLoopFuel blobs pageSize (blobs.length + 1) ⟨none⟩

/-! ### The `main` orchestration (src/main.go lines 44-145)

`main` is embedded as a sequence of steps over a `World` of oracle
results for each fallible external interaction.  Each step emits a
list of observable events and either continues or aborts the process
(`log.Fatal`); the run is the concatenated trace up to the first abort
plus the outcome. -/

/-- The `Credentials` struct (src/main.go lines 20-23). -/
structure Credentials where
  azureStorageAccountName : String
  azureStorageAccountKey : String
  deriving DecidableEq, Repr

/-- Observable actions of `main`, in program order. -/
inductive Event where
  | printed (s : String)
  | createContainerCall
  | uploadCall
  | listBlobsCall
  | downloadCall
  | calledBody
  | readBodyCall
  | stdinReadLine
  | deleteContainerCall
  | wroteLocalFile (name : String)
  | openedLocalFile (name : String)
  | removedLocalFile (name : String)
  deriving DecidableEq, Repr

/-- Which events issue a network request. -/
def Event.isNetwork : Event → Bool
  | .createContainerCall => true
  | .uploadCall => true
  | .listBlobsCall => true
  | .downloadCall => true
  | .readBodyCall => true
  | .deleteContainerCall => true
  | _ => false

/-- How the process ends: run to completion, or `log.Fatal`. -/
inductive Outcome where
  | completed
  | fatal (msg : String)
  deriving DecidableEq, Repr

/-- A run of `main`: the event trace and the outcome. -/
abbrev Run := List Event × Outcome

/-- Oracle results for every fallible external interaction of one
run.  Fields the program discards are still present, so that theorems
can state that the run does not depend on them. -/
structure World where
  credOpenError : Option String
  credFileParsed : Credentials
  readAllError : Option String
  unmarshalError : Option String
  sharedKeyError : Option String
  fileName : String
  containerName : String
  createError : Option GoError
  writeFileError : Option GoError
  openFileError : Option GoError
  uploadError : Option GoError
  listError : Option GoError
  blobNames : List String
  listPageSize : Nat
  downloadError : Option GoError
  readFromError : Option GoError
  deleteError : Option GoError
  removeError : Option String
  deriving DecidableEq, Repr

/-- The `credentials` value after `ioutil.ReadAll` and `json.Unmarshal`
(src/main.go lines 54-57): when the open failed, reading the nil file
errors (error discarded with `_`) and unmarshalling the empty buffer
fails (error discarded), leaving the zero value. -/
def loadedCredentials (w : World) : Credentials :=
  match w.credOpenError with
  | some _ => ⟨"", ""⟩
  | none => w.credFileParsed

/-- The message `log.Fatal(err)` reports. -/
def errorMessage : Option GoError → String
  | none => ""
  | some (.storageError sc) => sc
  | some (.plainError m) => m

/-- The events printed by `handleErrors` before it returns or exits. -/
def handledEvents : Option GoError → List Event
  | some (.storageError sc) =>
      if sc = serviceCodeContainerAlreadyExists then
        [.printed "Received 409. Container already exists"]
      else []
  | _ => []

/-- One step of `main`: emit events and continue, or emit events and
terminate fatally. -/
inductive StepResult where
  | ok (evs : List Event)
  | abort (evs : List Event) (msg : String)
  deriving DecidableEq, Repr

/-- The events a step emits. -/
def StepResult.events : StepResult → List Event
  | .ok evs => evs
  | .abort evs _ => evs

/-- A step that performs an action emitting `evs` and then passes the
resulting error to `handleErrors` (a `handleErrors(err)` call site). -/
def handledStep (evs : List Event) (e : Option GoError) : StepResult :=
  match handleErrors e with
  | .returned => .ok (evs ++ handledEvents e)
  | .fatalExit => .abort (evs ++ handledEvents e) (errorMessage e)

/-- Run a step sequence: concatenate emitted events until the first
abort; completed when no step aborts. -/
def runSteps : List StepResult → Run
  | [] => ([], .completed)
  | .ok evs :: rest => (evs ++ (runSteps rest).1, (runSteps rest).2)
  | .abort evs msg :: _ => (evs, .fatal msg)

/-- The upload options passed in src/main.go lines 105-107:
`BlockSize: 4*1024*1024, Parallelism: 16`. -/
def mainUploadOptions : UploadToBlockBlobOptions := ⟨4 * 1024 * 1024, 16⟩

/-- The range start `main` passes to `Download` (src/main.go line 128). -/
def mainDownloadOffset : Nat := 0

/-- The range count `main` passes to `Download`: `azblob.CountToEnd`. -/
def mainDownloadCount : Int := countToEnd

/-- `RetryReaderOptions{MaxRetryRequests: 20}` (src/main.go line 131). -/
def mainMaxRetryRequests : Nat := 20

/-- The prompt printed before the interactive gate (src/main.go 139). -/
def pressEnterMsg : String :=
  "Press enter key to delete the sample files, example cntainer, and exit the application."

/-- The fixed tail of every completed run (src/main.go lines 139-144):
print the prompt, block on `bufio.NewReader(os.Stdin).ReadBytes`, print
"Cleaning up.", issue `containerURL.Delete` (its error, `deleteError`,
is discarded), close the file and `os.Remove` the temp file (its error,
`removeError`, is discarded). -/
def cleanupTail (w : World) : List Event :=
  [Event.printed pressEnterMsg, Event.stdinReadLine,
   Event.printed "Cleaning up.", Event.deleteContainerCall,
   Event.removedLocalFile w.fileName]

/-- All steps of `main` before the interactive gate (src/main.go lines
44-136), in program order. -/
def mainStepsPre (w : World) : List StepResult :=
  -- first entry: the fmt.Printf banner
  [.ok [Event.printed "Azure Blob Storage quick start sample"],
   -- os.Open("credentials.json"): an open error is printed, not fatal
   .ok ((w.credOpenError.map Event.printed).toList),
   -- printed unconditionally, whether or not the open succeeded
   .ok [Event.printed "Successfully loading credentials.json"],
   -- ioutil.ReadAll's error (readAllError) is discarded with `_` and
   -- json.Unmarshal's error (unmarshalError) is discarded, so neither
   -- appears below; then the emptiness check on the loaded credentials
   (if (loadedCredentials w).azureStorageAccountName.length = 0 ∨
       (loadedCredentials w).azureStorageAccountKey.length = 0 then
      .abort []
        "Either the AzureStorageAccountName or AzureStorageAccountKey variable is empty"
    else .ok []),
   -- azblob.NewSharedKeyCredential
   (match w.sharedKeyError with
    | some msg => .abort [] ("Invalid credentials with error: " ++ msg)
    | none => .ok []),
   .ok [Event.printed ("Creating a container named " ++ w.containerName)],
   -- containerURL.Create + handleErrors
   handledStep [Event.createContainerCall] w.createError,
   .ok [Event.printed "Creating a dummy file to test the upload and download"],
   -- ioutil.WriteFile + handleErrors
   handledStep [Event.wroteLocalFile w.fileName] w.writeFileError,
   -- os.Open(fileName) + handleErrors
   handledStep [Event.openedLocalFile w.fileName] w.openFileError,
   .ok [Event.printed ("Uploading the file with blob name: " ++ w.fileName)],
   -- azblob.UploadFileToBlockBlob + handleErrors
   handledStep [Event.uploadCall] w.uploadError,
   .ok [Event.printed "Listing the blobs in the container:"],
   -- the marker loop: ListBlobsFlatSegment + handleErrors (error
   -- handling folded to the first call), then one print per blob name
   handledStep [Event.listBlobsCall] w.listError,
   .ok ((listAllBlobs w.blobNames w.listPageSize).map
     (fun n => Event.printed (" Blob name: " ++ n))),
   -- downloadResponse, err := blobURL.Download(...): downloadError is
   -- assigned to err here but never inspected — it is overwritten by
   -- ReadFrom's result below before handleErrors runs, and Body is
   -- called on the response regardless
   .ok [Event.downloadCall, Event.calledBody],
   -- downloadedData.ReadFrom(bodyStream) + handleErrors: this is the
   -- error that reaches handleErrors, not the Download error
   handledStep [Event.readBodyCall] w.readFromError]

/-- The full step sequence of `main`. -/
def mainSteps (w : World) : List StepResult :=
  mainStepsPre w ++ [.ok (cleanupTail w)]

/-- The embedding of `main` (src/main.go lines 44-145). -/
def mainRun (w : World) : Run :=
  runSteps (mainSteps w)

/-- A trace fragment containing no cleanup action and no stdin read:
everything `main` does happens inside such fragments until the gate. -/
def gateFree (t : List Event) : Prop :=
  Event.deleteContainerCall ∉ t ∧ (∀ n, Event.removedLocalFile n ∉ t) ∧
    Event.stdinReadLine ∉ t

/-- `World` update for the discarded `containerURL.Delete` error. -/
def setDeleteError (w : World) (e : Option GoError) : World :=
  ⟨w.credOpenError, w.credFileParsed, w.readAllError, w.unmarshalError,
   w.sharedKeyError, w.fileName, w.containerName, w.createError,
   w.writeFileError, w.openFileError, w.uploadError, w.listError,
   w.blobNames, w.listPageSize, w.downloadError, w.readFromError, e,
   w.removeError⟩

/-- `World` update for the shadowed `blobURL.Download` error. -/
def setDownloadError (w : World) (e : Option GoError) : World :=
  ⟨w.credOpenError, w.credFileParsed, w.readAllError, w.unmarshalError,
   w.sharedKeyError, w.fileName, w.containerName, w.createError,
   w.writeFileError, w.openFileError, w.uploadError, w.listError,
   w.blobNames, w.listPageSize, e, w.readFromError, w.deleteError,
   w.removeError⟩

/-- `World` update for the discarded `ioutil.ReadAll` and
`json.Unmarshal` errors. -/
def setReadErrors (w : World) (r u : Option String) : World :=
  ⟨w.credOpenError, w.credFileParsed, r, u, w.sharedKeyError, w.fileName,
   w.containerName, w.createError, w.writeFileError, w.openFileError,
   w.uploadError, w.listError, w.blobNames, w.listPageSize,
   w.downloadError, w.readFromError, w.deleteError, w.removeError⟩

/-- A run in which every external interaction succeeds. -/
def benignWorld : World :=
  ⟨none, ⟨"account", "key"⟩, none, none, none, "12345",
   "quickstart-12345", none, none, none, none, none, ["12345"], 3,
   none, none, none, none⟩

/-- A run whose only failure is the discarded `Delete` error. -/
def deleteFailWorld : World :=
  setDeleteError benignWorld (some (.plainError "delete failed"))

/-- A run in which the credentials file parses to empty fields. -/
def emptyCredWorld : World :=
  ⟨none, ⟨"", ""⟩, none, none, none, "f", "c", none, none, none, none,
   none, [], 1, none, none, none, none⟩

/-- A run in which opening credentials.json fails. -/
def openFailWorld : World :=
  ⟨some "open credentials.json: no such file or directory",
   ⟨"account", "key"⟩, some "read error", some "unmarshal error", none,
   "f", "c", none, none, none, none, none, [], 1, none, none, none,
   none⟩

/-! ## Chunking lemmas -/

theorem chunkFuel_join (B : Nat) (hB : 0 < B) :
    ∀ (fuel : Nat) (l : List α), l.length ≤ fuel →
      (chunkFuel B fuel l).flatten = l := by
  intro fuel
  induction fuel with
  | zero =>
      intro l hl
      have : l = [] := List.eq_nil_of_length_eq_zero (Nat.le_zero.mp hl)
      subst this; rfl
  | succ n ih =>
      intro l hl
      cases l with
      | nil => rfl
      | cons a t =>
          have hdrop : ((a :: t).drop B).length ≤ n := by
            rw [List.length_drop]
            have : (a :: t).length - B ≤ (a :: t).length - 1 :=
              Nat.sub_le_sub_left hB _
            have h2 : (a :: t).length - 1 ≤ n := by
              simpa [List.length_cons] using Nat.le_of_succ_le_succ hl
            exact Nat.le_trans this h2
          simp only [chunkFuel, List.flatten]
          rw [ih _ hdrop, List.take_append_drop]

/-- Joining the chunks recovers the original list (positive block size). -/
theorem chunksOf_join (B : Nat) (hB : 0 < B) (l : List α) :
    (chunksOf B l).flatten = l :=
  chunkFuel_join B hB l.length l (Nat.le_refl _)

theorem ceilDiv_step (B L : Nat) (hB : 0 < B) (hL : 0 < L) :
    (L - B + B - 1) / B + 1 = (L + B - 1) / B := by
  rcases le_or_lt L B with h | h
  · have h0 : L - B = 0 := Nat.sub_eq_zero_of_le h
    rw [h0]
    have lhs1 : (0 + B - 1) / B = 0 := Nat.div_eq_of_lt (by omega)
    rw [lhs1]
    have rhs1 : (L + B - 1) / B = 1 := by
      have hlo : 1 * B ≤ L + B - 1 := by omega
      have hhi : L + B - 1 < (1 + 1) * B := by omega
      exact Nat.div_eq_of_lt_le hlo hhi
    omega
  · have hLB : L - B + B = L := Nat.sub_add_cancel (Nat.le_of_lt h)
    rw [hLB]
    have : L + B - 1 = (L - 1) + B := by omega
    rw [this, Nat.add_div_right _ hB]

theorem chunkFuel_length (B : Nat) (hB : 0 < B) :
    ∀ (fuel : Nat) (l : List α), l.length ≤ fuel →
      (chunkFuel B fuel l).length = (l.length + B - 1) / B := by
  intro fuel
  induction fuel with
  | zero =>
      intro l hl
      have : l = [] := List.eq_nil_of_length_eq_zero (Nat.le_zero.mp hl)
      subst this
      simp only [chunkFuel, List.length_nil]
      rw [Nat.div_eq_of_lt (by omega)]
  | succ n ih =>
      intro l hl
      cases l with
      | nil =>
          simp only [chunkFuel, List.length_nil]
          rw [Nat.div_eq_of_lt (by omega)]
      | cons a t =>
          have hdrop : ((a :: t).drop B).length ≤ n := by
            rw [List.length_drop]
            have : (a :: t).length - B ≤ (a :: t).length - 1 :=
              Nat.sub_le_sub_left hB _
            have h2 : (a :: t).length - 1 ≤ n := by
              simpa [List.length_cons] using Nat.le_of_succ_le_succ hl
            exact Nat.le_trans this h2
          simp only [chunkFuel, List.length_cons]
          rw [ih _ hdrop, List.length_drop, List.length_cons]
          exact ceilDiv_step B (t.length + 1) hB (Nat.succ_pos _)

/-- Number of chunks equals `⌈length / B⌉` (positive block size). -/
theorem chunksOf_length (B : Nat) (hB : 0 < B) (l : List α) :
    (chunksOf B l).length = (l.length + B - 1) / B :=
  chunkFuel_length B hB l.length l (Nat.le_refl _)

theorem chunkFuel_mem_length_le (B : Nat) :
    ∀ (fuel : Nat) (l : List α) (c : List α),
      c ∈ chunkFuel B fuel l → c.length ≤ B := by
  intro fuel
  induction fuel with
  | zero => intro l c hc; simp [chunkFuel] at hc
  | succ n ih =>
      intro l c hc
      cases l with
      | nil => simp [chunkFuel] at hc
      | cons a t =>
          simp only [chunkFuel, List.mem_cons] at hc
          rcases hc with h | h
          · subst h
            exact List.length_take_le B (a :: t)
          · exact ih _ _ h

/-- Every chunk has length at most `B`. -/
theorem chunksOf_mem_length_le (B : Nat) (l : List α) (c : List α)
    (hc : c ∈ chunksOf B l) : c.length ≤ B :=
  chunkFuel_mem_length_le B l.length l c hc

/-- The committed content of an upload is the original payload. -/
theorem committedContent_upload (data : List α)
    (o : UploadToBlockBlobOptions) (hB : 0 < o.blockSize) :
    committedContent (uploadFileToBlockBlob data o) = data := by
  unfold uploadFileToBlockBlob
  by_cases h : data.length ≤ blockBlobMaxUploadBlobBytes
  · simp [h, committedContent]
  · simp only [h, if_false, committedContent]
    exact chunksOf_join o.blockSize hB data

/-! ## Staging and commit-order lemmas -/

theorem mem_stageBlocks (blocks : List (List α)) (order : List Nat)
    (p : Nat × List α) (hp : p ∈ stageBlocks blocks order) :
    blocks.get? p.1 = some p.2 := by
  simp only [stageBlocks, List.mem_filterMap] at hp
  obtain ⟨i, _, hi⟩ := hp
  cases hg : blocks.get? i with
  | none => rw [hg] at hi; simp at hi
  | some b =>
      rw [hg] at hi
      simp only [Option.map_some'] at hi
      cases hi
      exact hg

theorem stageBlocks_mem_of (blocks : List (List α)) (order : List Nat)
    (i : Nat) (b : List α) (hi : i ∈ order) (hb : blocks.get? i = some b) :
    (i, b) ∈ stageBlocks blocks order := by
  simp only [stageBlocks, List.mem_filterMap]
  exact ⟨i, hi, by rw [hb]; rfl⟩

theorem find?_spec (q : α → Bool) :
    ∀ (l : List α) (a : α), l.find? q = some a → q a = true ∧ a ∈ l := by
  intro l
  induction l with
  | nil => intro a h; simp [List.find?] at h
  | cons x xs ih =>
      intro a h
      by_cases hx : q x = true
      · rw [List.find?_cons_of_pos _ hx] at h
        cases h
        exact ⟨hx, List.mem_cons_self x xs⟩
      · rw [List.find?_cons_of_neg _ (by simpa using hx)] at h
        obtain ⟨hq, hmem⟩ := ih a h
        exact ⟨hq, List.mem_cons_of_mem x hmem⟩

theorem find?_isSome_of_mem (q : α → Bool) :
    ∀ (l : List α) (a : α), a ∈ l → q a = true → ∃ p, l.find? q = some p := by
  intro l
  induction l with
  | nil => intro a h; simp at h
  | cons x xs ih =>
      intro a h hq
      by_cases hx : q x = true
      · exact ⟨x, List.find?_cons_of_pos _ hx⟩
      · rcases List.mem_cons.mp h with rfl | hmem
        · exact absurd hq hx
        · obtain ⟨p, hp⟩ := ih a hmem hq
          exact ⟨p, by rw [List.find?_cons_of_neg _ (by simpa using hx)]; exact hp⟩

theorem lookupStaged_eq (blocks : List (List α)) (order : List Nat)
    (i : Nat) (b : List α) (hi : i ∈ order) (hb : blocks.get? i = some b) :
    lookupStaged (stageBlocks blocks order) i = some b := by
  have hmem : (i, b) ∈ stageBlocks blocks order :=
    stageBlocks_mem_of blocks order i b hi hb
  obtain ⟨p, hp⟩ := find?_isSome_of_mem (fun p => p.1 == i)
    (stageBlocks blocks order) (i, b) hmem (by simp)
  obtain ⟨hpred, hpmem⟩ := find?_spec (fun p => p.1 == i) _ p hp
  have hget : blocks.get? p.1 = some p.2 := mem_stageBlocks blocks order p hpmem
  have hpi : p.1 = i := by simpa using hpred
  rw [hpi] at hget
  rw [hb] at hget
  simp only [lookupStaged, hp, Option.map_some']
  cases hget
  rfl

theorem collectBlocks_eq (staged : List (Nat × List α)) (f : Nat → List α) :
    ∀ ids : List Nat, (∀ i ∈ ids, lookupStaged staged i = some (f i)) →
      collectBlocks staged ids = some (ids.map f) := by
  intro ids
  induction ids with
  | nil => intro _; rfl
  | cons i rest ih =>
      intro h
      have hi := h i (List.mem_cons_self i rest)
      have hrest := ih (fun j hj => h j (List.mem_cons_of_mem i hj))
      simp only [collectBlocks, hi, hrest, List.map_cons]

theorem map_range_eq (l : List β) :
    ∀ f : Nat → β, (∀ i b, l.get? i = some b → f i = b) →
      (List.range l.length).map f = l := by
  induction l with
  | nil => intro f _; rfl
  | cons a t ih =>
      intro f h
      rw [List.length_cons, List.range_succ_eq_map, List.map_cons, List.map_map]
      have h0 : f 0 = a := h 0 a rfl
      have ht : (List.range t.length).map (f ∘ Nat.succ) = t :=
        ih (f ∘ Nat.succ) (fun i b hb => h (i + 1) b hb)
      rw [h0, ht]

/-- Committing after any completion order that is a permutation of the
block indices reproduces the blocks in original byte order. -/
theorem commitBlockList_perm (blocks : List (List α)) (order : List Nat)
    (hperm : order.Perm (List.range blocks.length)) :
    commitBlockList blocks order = some blocks := by
  have hlook : ∀ i ∈ List.range blocks.length,
      lookupStaged (stageBlocks blocks order) i = some (blocks.getD i []) := by
    intro i hi
    have hilt : i < blocks.length := List.mem_range.mp hi
    have hget : blocks.get? i = some (blocks.getD i []) := by
      rw [List.getD_eq_getElem?_getD, List.get?_eq_getElem?]
      rw [List.getElem?_eq_getElem hilt]
      rfl
    exact lookupStaged_eq blocks order i _ (hperm.symm.mem_iff.mp hi) hget
  rw [commitBlockList, collectBlocks_eq (stageBlocks blocks order)
    (fun i => blocks.getD i []) (List.range blocks.length) hlook]
  rw [map_range_eq blocks (fun i => blocks.getD i [])]
  intro i b hb
  rw [List.get?_eq_getElem?] at hb
  rw [List.getD_eq_getElem?_getD, hb]
  rfl

/-! ## Retry-reader lemmas -/

theorem retryReadLoop_complete (content : List α) :
    ∀ (drops : List Nat) (budget offset : Nat), drops.length ≤ budget →
      retryReadLoop content drops budget offset (content.take offset) =
        some content := by
  intro drops
  induction drops with
  | nil =>
      intro budget offset _
      simp only [retryReadLoop, List.take_append_drop]
  | cons d rest ih =>
      intro budget offset hlen
      cases budget with
      | zero => exact absurd hlen (by simp)
      | succ b =>
          simp only [retryReadLoop]
          have hacc : content.take offset ++ (content.drop offset).take d =
              content.take (offset + ((content.drop offset).take d).length) := by
            rw [List.take_add]
            congr 1
            rw [List.take_eq_take]
            rw [List.length_take, List.length_drop]
            omega
          rw [hacc]
          exact ih b _ (Nat.le_of_succ_le_succ hlen)

/-- Within the retry budget, the stream delivers the full content. -/
theorem readRetryStream_complete (content : List α) (maxRetryRequests : Nat)
    (drops : List Nat) (h : drops.length ≤ maxRetryRequests) :
    readRetryStream content maxRetryRequests drops = some content :=
  retryReadLoop_complete content drops maxRetryRequests 0 h

theorem retryReadLoop_exhausted (content : List α) :
    ∀ (drops : List Nat) (budget offset : Nat) (acc : List α),
      budget < drops.length →
      retryReadLoop content drops budget offset acc = none := by
  intro drops
  induction drops with
  | nil => intro budget offset acc h; simp at h
  | cons d rest ih =>
      intro budget offset acc h
      cases budget with
      | zero => rfl
      | succ b =>
          simp only [retryReadLoop]
          exact ih b _ _ (by simpa using Nat.lt_of_succ_lt_succ h)

/-- Exhausting the retry budget fails the download. -/
theorem readRetryStream_exhausted (content : List α) (maxRetryRequests : Nat)
    (drops : List Nat) (h : maxRetryRequests < drops.length) :
    readRetryStream content maxRetryRequests drops = none :=
  retryReadLoop_exhausted content drops maxRetryRequests 0 [] h

/-! ## Pagination lemmas -/

theorem listLoopFuel_done (blobs : List String) (pageSize fuel : Nat)
    (m : Marker) (h : m.notDone = false) :
    listLoopFuel blobs pageSize fuel m = [] := by
  cases fuel with
  | zero => rfl
  | succ n => simp [listLoopFuel, h]

theorem listLoopFuel_drop (blobs : List String) (pageSize : Nat)
    (hK : 0 < pageSize) :
    ∀ (fuel : Nat) (m : Marker), m.notDone = true →
      blobs.length - markerStart m ≤ fuel →
      listLoopFuel blobs pageSize fuel m = blobs.drop (markerStart m) := by
  intro fuel
  induction fuel with
  | zero =>
      intro m hm hlen
      rw [listLoopFuel]
      rw [List.drop_eq_nil_of_le (by omega)]
  | succ n ih =>
      intro m hm hlen
      simp only [listLoopFuel, hm, if_true]
      set start := markerStart m with hstart
      by_cases hend : blobs.length ≤ start + pageSize
      · have hnext : (listBlobsFlatSegment blobs pageSize m).nextMarker =
            ⟨some none⟩ := by
          simp [listBlobsFlatSegment, ← hstart, hend]
        rw [hnext, listLoopFuel_done blobs pageSize n ⟨some none⟩ rfl,
          List.append_nil]
        show (blobs.drop start).take pageSize = blobs.drop start
        rw [List.take_of_length_le]
        rw [List.length_drop]
        omega
      · have hnext : (listBlobsFlatSegment blobs pageSize m).nextMarker =
            ⟨some (some (start + pageSize))⟩ := by
          simp [listBlobsFlatSegment, ← hstart, hend]
        rw [hnext, ih ⟨some (some (start + pageSize))⟩ rfl (by
          show blobs.length - markerStart ⟨some (some (start + pageSize))⟩ ≤ n
          show blobs.length - (start + pageSize) ≤ n
          omega)]
        show (blobs.drop start).take pageSize ++
          blobs.drop (markerStart ⟨some (some (start + pageSize))⟩) =
          blobs.drop start
        show (blobs.drop start).take pageSize ++
          blobs.drop (start + pageSize) = blobs.drop start
        have hdd : blobs.drop (start + pageSize) =
            (blobs.drop start).drop pageSize := by
          rw [List.drop_drop]
        rw [hdd, List.take_append_drop]

/-- The marker loop yields exactly the container's contents. -/
theorem listAllBlobs_eq (blobs : List String) (pageSize : Nat)
    (hK : 0 < pageSize) : listAllBlobs blobs pageSize = blobs := by
  have h := listLoopFuel_drop blobs pageSize hK (blobs.length + 1) ⟨none⟩ rfl
    (by show blobs.length - 0 ≤ blobs.length + 1; omega)
  simpa [listAllBlobs, markerStart] using h

/-! ## Trace-structure lemmas for `mainRun` -/

theorem gateFree_nil : gateFree [] := by
  refine ⟨by simp, fun n => by simp, by simp⟩

theorem gateFree_append {s t : List Event} (hs : gateFree s)
    (ht : gateFree t) : gateFree (s ++ t) := by
  obtain ⟨h1, h2, h3⟩ := hs
  obtain ⟨g1, g2, g3⟩ := ht
  refine ⟨?_, ?_, ?_⟩
  · simp only [List.mem_append]
    rintro (h | h)
    · exact h1 h
    · exact g1 h
  · intro n
    simp only [List.mem_append]
    rintro (h | h)
    · exact h2 n h
    · exact g2 n h
  · simp only [List.mem_append]
    rintro (h | h)
    · exact h3 h
    · exact g3 h

theorem handledEvents_printed (e : Option GoError) (x : Event)
    (hx : x ∈ handledEvents e) : ∃ s, x = Event.printed s := by
  match e with
  | none => simp [handledEvents] at hx
  | some (.plainError m) => simp [handledEvents] at hx
  | some (.storageError sc) =>
      by_cases h : sc = serviceCodeContainerAlreadyExists
      · simp only [handledEvents, if_pos h, List.mem_singleton] at hx
        exact ⟨_, hx⟩
      · simp [handledEvents, if_neg h] at hx

theorem gateFree_of_printed {t : List Event}
    (h : ∀ x ∈ t, ∃ s, x = Event.printed s) : gateFree t := by
  refine ⟨?_, ?_, ?_⟩
  · intro hmem
    obtain ⟨s, hs⟩ := h _ hmem
    cases hs
  · intro n hmem
    obtain ⟨s, hs⟩ := h _ hmem
    cases hs
  · intro hmem
    obtain ⟨s, hs⟩ := h _ hmem
    cases hs

theorem gateFree_handledEvents (e : Option GoError) :
    gateFree (handledEvents e) :=
  gateFree_of_printed (handledEvents_printed e)

theorem handledStep_events (evs : List Event) (e : Option GoError) :
    (handledStep evs e).events = evs ++ handledEvents e := by
  unfold handledStep
  cases handleErrors e <;> rfl

theorem gateFree_handledStep (evs : List Event) (e : Option GoError)
    (h : gateFree evs) : gateFree (handledStep evs e).events := by
  rw [handledStep_events]
  exact gateFree_append h (gateFree_handledEvents e)

theorem runSteps_nil : runSteps [] = ([], .completed) := rfl

theorem runSteps_cons_ok (evs : List Event) (rest : List StepResult) :
    runSteps (.ok evs :: rest) =
      (evs ++ (runSteps rest).1, (runSteps rest).2) := rfl

theorem runSteps_cons_abort (evs : List Event) (msg : String)
    (rest : List StepResult) :
    runSteps (.abort evs msg :: rest) = (evs, .fatal msg) := rfl

/-- Running gate-free steps followed by one final `ok` step either
aborts with a gate-free trace, or completes with the final events as
the trace's suffix after a gate-free prefix. -/
theorem runSteps_structure (final : List Event) :
    ∀ pre : List StepResult, (∀ s ∈ pre, gateFree s.events) →
      (gateFree (runSteps (pre ++ [.ok final])).1 ∧
        (runSteps (pre ++ [.ok final])).2 ≠ .completed) ∨
      (∃ p, (runSteps (pre ++ [.ok final])).1 = p ++ final ∧ gateFree p ∧
        (runSteps (pre ++ [.ok final])).2 = .completed) := by
  intro pre
  induction pre with
  | nil =>
      intro _
      refine Or.inr ⟨[], ?_, gateFree_nil, rfl⟩
      simp [runSteps]
  | cons s rest ih =>
      intro hgood
      have hs : gateFree s.events := hgood s (List.mem_cons_self s rest)
      have hrest := ih (fun t ht => hgood t (List.mem_cons_of_mem s ht))
      cases s with
      | abort evs msg =>
          rw [List.cons_append, runSteps_cons_abort]
          exact Or.inl ⟨hs, by simp⟩
      | ok evs =>
          rw [List.cons_append, runSteps_cons_ok]
          rcases hrest with ⟨hg, hne⟩ | ⟨p, hp, hgp, hc⟩
          · exact Or.inl ⟨gateFree_append hs hg, hne⟩
          · refine Or.inr ⟨evs ++ p, ?_, gateFree_append hs hgp, hc⟩
            rw [List.append_assoc]
            show evs ++ (runSteps (rest ++ [.ok final])).1 = evs ++ (p ++ final)
            rw [hp]

/-- Every run of `main` either ends fatally with a trace containing no
cleanup action and no stdin read, or completes with a gate-free prefix
followed by the fixed cleanup tail. -/
theorem mainRun_structure (w : World) :
    (gateFree (mainRun w).1 ∧ (mainRun w).2 ≠ .completed) ∨
    (∃ p, (mainRun w).1 = p ++ cleanupTail w ∧ gateFree p ∧
      (mainRun w).2 = .completed) := by
  apply runSteps_structure (cleanupTail w) (mainStepsPre w)
  intro s hs
  simp only [mainStepsPre, List.mem_cons, List.not_mem_nil, or_false] at hs
  rcases hs with rfl | rfl | rfl | rfl | rfl | rfl | rfl | rfl | rfl | rfl |
    rfl | rfl | rfl | rfl | rfl | rfl | rfl
  · exact gateFree_of_printed (by intro x hx; simp [StepResult.events] at hx; exact ⟨_, hx⟩)
  · cases w.credOpenError with
    | none => exact gateFree_nil
    | some msg =>
        exact gateFree_of_printed (by intro x hx; simp [StepResult.events] at hx; exact ⟨_, hx⟩)
  · exact gateFree_of_printed (by intro x hx; simp [StepResult.events] at hx; exact ⟨_, hx⟩)
  · split
    · exact gateFree_nil
    · exact gateFree_nil
  · cases w.sharedKeyError with
    | none => exact gateFree_nil
    | some msg => exact gateFree_nil
  · exact gateFree_of_printed (by intro x hx; simp [StepResult.events] at hx; exact ⟨_, hx⟩)
  · exact gateFree_handledStep _ _ (by simp [gateFree])
  · exact gateFree_of_printed (by intro x hx; simp [StepResult.events] at hx; exact ⟨_, hx⟩)
  · exact gateFree_handledStep _ _ (by simp [gateFree])
  · exact gateFree_handledStep _ _ (by simp [gateFree])
  · exact gateFree_of_printed (by intro x hx; simp [StepResult.events] at hx; exact ⟨_, hx⟩)
  · exact gateFree_handledStep _ _ (by simp [gateFree])
  · exact gateFree_of_printed (by intro x hx; simp [StepResult.events] at hx; exact ⟨_, hx⟩)
  · exact gateFree_handledStep _ _ (by simp [gateFree])
  · apply gateFree_of_printed
    intro x hx
    simp only [StepResult.events] at hx
    obtain ⟨n, _, hn⟩ := List.mem_map.mp hx
    exact ⟨_, hn.symm⟩
  · exact (by simp [gateFree] : gateFree [Event.downloadCall, Event.calledBody])
  · exact gateFree_handledStep _ _ (by simp [gateFree])

/-- The trace of a step run is the concatenation of the events of some
leading portion of the steps: a step's events appear all-or-nothing. -/
theorem runSteps_trace :
    ∀ steps : List StepResult, ∃ taken rest, taken ++ rest = steps ∧
      (runSteps steps).1 = (taken.map StepResult.events).flatten := by
  intro steps
  induction steps with
  | nil => exact ⟨[], [], rfl, rfl⟩
  | cons s t ih =>
      cases s with
      | abort evs msg =>
          refine ⟨[.abort evs msg], t, rfl, ?_⟩
          simp [runSteps_cons_abort, StepResult.events]
      | ok evs =>
          obtain ⟨taken, rest, hsplit, htrace⟩ := ih
          refine ⟨.ok evs :: taken, rest, ?_, ?_⟩
          · rw [List.cons_append, hsplit]
          · rw [runSteps_cons_ok]
            show evs ++ (runSteps t).1 =
              ((StepResult.ok evs :: taken).map StepResult.events).flatten
            rw [htrace]
            simp [StepResult.events]

theorem mem_handledStep (evs : List Event) (e : Option GoError) (x : Event)
    (hx : x ∈ (handledStep evs e).events) :
    x ∈ evs ∨ ∃ s, x = Event.printed s := by
  rw [handledStep_events] at hx
  rcases List.mem_append.mp hx with h | h
  · exact Or.inl h
  · exact Or.inr (handledEvents_printed e x h)

/-- In every step of `main`, a download call is accompanied by the
`Body` dereference in the same step. -/
theorem mainSteps_download_body (w : World) (s : StepResult)
    (hs : s ∈ mainSteps w) (hd : Event.downloadCall ∈ s.events) :
    Event.calledBody ∈ s.events := by
  simp only [mainSteps, mainStepsPre, List.mem_append, List.mem_cons,
    List.not_mem_nil, or_false, List.mem_singleton] at hs
  rcases hs with (rfl | rfl | rfl | rfl | rfl | rfl | rfl | rfl | rfl | rfl |
    rfl | rfl | rfl | rfl | rfl | rfl | rfl) | rfl
  · simp [StepResult.events] at hd
  · cases w.credOpenError with
    | none => simp [StepResult.events] at hd
    | some msg => simp [StepResult.events] at hd
  · simp [StepResult.events] at hd
  · split at hd <;> simp [StepResult.events] at hd
  · rcases hsk : w.sharedKeyError with _ | msg <;>
      rw [hsk] at hd <;> simp [StepResult.events] at hd
  · simp [StepResult.events] at hd
  · rcases mem_handledStep _ _ _ hd with h | ⟨s, hps⟩
    · simp at h
    · cases hps
  · simp [StepResult.events] at hd
  · rcases mem_handledStep _ _ _ hd with h | ⟨s, hps⟩
    · simp at h
    · cases hps
  · rcases mem_handledStep _ _ _ hd with h | ⟨s, hps⟩
    · simp at h
    · cases hps
  · simp [StepResult.events] at hd
  · rcases mem_handledStep _ _ _ hd with h | ⟨s, hps⟩
    · simp at h
    · cases hps
  · simp [StepResult.events] at hd
  · rcases mem_handledStep _ _ _ hd with h | ⟨s, hps⟩
    · simp at h
    · cases hps
  · simp [StepResult.events, List.mem_map] at hd
  · simp [StepResult.events]
  · rcases mem_handledStep _ _ _ hd with h | ⟨s, hps⟩
    · simp at h
    · cases hps
  · simp [cleanupTail, StepResult.events] at hd

/-! ## Claim theorems -/

/-- C1: for every byte payload, running the upload workflow and then
the download workflow on the same blob name, and reading the returned
stream to completion, yields exactly the payload byte-for-byte; the
statement quantifies over all payloads, covering both the
single-request branch and the multi-block branch of the upload. -/
theorem c1_roundtrip (store : BlobStore Nat) (name : String)
    (data : List Nat) (o : UploadToBlockBlobOptions) (hB : 0 < o.blockSize) :
    downloadRange (uploadBlob store name data o) name mainDownloadOffset
      mainDownloadCount = some data ∧
    readRetryStream data mainMaxRetryRequests [] = some data := by
  constructor
  · simp [downloadRange, uploadBlob, mainDownloadOffset, mainDownloadCount,
      committedContent_upload data o hB]
  · exact readRetryStream_complete data mainMaxRetryRequests [] (by simp)

/-- C2: `handleErrors` returns normally on a non-nil error exactly when
it is a storage error whose service code is `ContainerAlreadyExists`;
every other non-nil error terminates the process. -/
theorem c2_handleErrors_recoverable (e : GoError) :
    handleErrors (some e) = HandleResult.returned ↔
      e = GoError.storageError serviceCodeContainerAlreadyExists := by
  cases e with
  | storageError sc =>
      by_cases h : sc = serviceCodeContainerAlreadyExists
      · simp [handleErrors, h]
      · simp [handleErrors, h]
  | plainError m => simp [handleErrors]

/-- C3: a payload at or below the 256MB threshold resolves to a single
direct write; a larger payload is split into `⌈S/B⌉` ordered blocks of
length at most `B` whose concatenation is the payload, and the commit
reads the staged blocks back in original order regardless of the
completion order of the concurrent block uploads. -/
theorem c3_chunked_upload (data : List Nat) (o : UploadToBlockBlobOptions)
    (hB : 0 < o.blockSize) :
    (data.length ≤ blockBlobMaxUploadBlobBytes →
      uploadFileToBlockBlob data o = UploadPlan.singleShot data) ∧
    (blockBlobMaxUploadBlobBytes < data.length →
      uploadFileToBlockBlob data o =
        UploadPlan.stagedBlocks (chunksOf o.blockSize data) ∧
      (chunksOf o.blockSize data).length =
        (data.length + o.blockSize - 1) / o.blockSize ∧
      (∀ c ∈ chunksOf o.blockSize data, c.length ≤ o.blockSize) ∧
      (chunksOf o.blockSize data).flatten = data ∧
      ∀ order, order.Perm (List.range (chunksOf o.blockSize data).length) →
        commitBlockList (chunksOf o.blockSize data) order =
          some (chunksOf o.blockSize data)) := by
  constructor
  · intro h
    simp [uploadFileToBlockBlob, h]
  · intro h
    exact ⟨by simp [uploadFileToBlockBlob, Nat.not_le.mpr h],
      chunksOf_length o.blockSize hB data,
      fun c hc => chunksOf_mem_length_le o.blockSize data c hc,
      chunksOf_join o.blockSize hB data,
      fun order hperm => commitBlockList_perm _ order hperm⟩

/-- C4: the marker loop, passing each returned marker back and
stopping exactly when `NotDone()` is false, yields the container's
contents exactly — no name skipped or duplicated — and any loop
iteration started on a done marker contributes nothing. -/
theorem c4_pagination (blobs : List String) (pageSize : Nat)
    (hK : 0 < pageSize) :
    listAllBlobs blobs pageSize = blobs ∧
    (blobs.Nodup → (listAllBlobs blobs pageSize).Nodup) ∧
    ∀ (fuel : Nat) (m : Marker), m.notDone = false →
      listLoopFuel blobs pageSize fuel m = [] := by
  refine ⟨listAllBlobs_eq blobs pageSize hK, ?_, ?_⟩
  · intro h
    rw [listAllBlobs_eq blobs pageSize hK]
    exact h
  · intro fuel m hm
    exact listLoopFuel_done blobs pageSize fuel m hm

/-- C5: the download is invoked with range start 0 and count
`CountToEnd` and returns the full committed content; the retrying
stream delivers the complete content whenever the number of mid-read
connection drops is within the budget of 20 retries (resuming from the
last delivered offset), and fails once the budget is exhausted. -/
theorem c5_download_retry (store : BlobStore Nat) (name : String)
    (content : List Nat) (drops : List Nat)
    (h : store name = some content) :
    downloadRange store name mainDownloadOffset mainDownloadCount =
      some content ∧
    (drops.length ≤ mainMaxRetryRequests →
      readRetryStream content mainMaxRetryRequests drops = some content) ∧
    (mainMaxRetryRequests < drops.length →
      readRetryStream content mainMaxRetryRequests drops = none) := by
  refine ⟨?_, fun hd => readRetryStream_complete content _ drops hd,
    fun hd => readRetryStream_exhausted content _ drops hd⟩
  simp [downloadRange, h, mainDownloadOffset, mainDownloadCount]

/-- C6: if the loaded configuration has an empty account name or an
empty access key, the process terminates fatally and its trace contains
no network call. -/
theorem c6_config_empty_fatal (w : World)
    (h : (loadedCredentials w).azureStorageAccountName = "" ∨
      (loadedCredentials w).azureStorageAccountKey = "") :
    (mainRun w).2 = Outcome.fatal
      "Either the AzureStorageAccountName or AzureStorageAccountKey variable is empty" ∧
    ∀ e ∈ (mainRun w).1, e.isNetwork = false := by
  have hcond : (loadedCredentials w).azureStorageAccountName.length = 0 ∨
      (loadedCredentials w).azureStorageAccountKey.length = 0 := by
    rcases h with h | h
    · exact Or.inl (by rw [h]; rfl)
    · exact Or.inr (by rw [h]; rfl)
  constructor
  · unfold mainRun mainSteps mainStepsPre
    rw [if_pos hcond]
    rfl
  · unfold mainRun mainSteps mainStepsPre
    rw [if_pos hcond]
    intro e he
    simp only [runSteps, List.mem_append, List.mem_cons,
      List.not_mem_nil, or_false] at he
    rcases hco : w.credOpenError with _ | msg <;> rw [hco] at he <;>
      simp at he
    · rcases he with rfl | rfl <;> rfl
    · rcases he with rfl | rfl | rfl <;> rfl

/-- C7 counterexample: a run in which `containerURL.Delete` returns an
error still completes normally (the Delete call happens, the error is
not treated as fatal), refuting the claim that a Delete error is
fatal. -/
theorem c7_counterexample :
    deleteFailWorld.deleteError = some (GoError.plainError "delete failed") ∧
    Event.deleteContainerCall ∈ (mainRun deleteFailWorld).1 ∧
    (mainRun deleteFailWorld).2 = Outcome.completed := by
  refine ⟨rfl, by decide, by decide⟩

/-- C7 (amended): the program discards the result of the container
Delete call entirely: the run is identical whatever error Delete
returns, so a Delete error is ignored, not fatal. -/
theorem c7_delete_error_discarded (w : World) (e : Option GoError) :
    mainRun (setDeleteError w e) = mainRun w := rfl

/-- C8: in every run, the container-delete request and the local
temp-file removal occur only after the single stdin gate: whenever the
trace contains a cleanup action, it splits at a stdin read such that
the prefix contains no cleanup action and no other stdin read, and both
cleanup actions lie in the suffix. -/
theorem c8_cleanup_after_gate (w : World)
    (h : Event.deleteContainerCall ∈ (mainRun w).1 ∨
      ∃ n, Event.removedLocalFile n ∈ (mainRun w).1) :
    ∃ pre post, (mainRun w).1 = pre ++ Event.stdinReadLine :: post ∧
      Event.deleteContainerCall ∉ pre ∧
      (∀ n, Event.removedLocalFile n ∉ pre) ∧
      Event.stdinReadLine ∉ pre ∧
      Event.deleteContainerCall ∈ post ∧
      ∃ n, Event.removedLocalFile n ∈ post := by
  rcases mainRun_structure w with ⟨⟨h1, h2, h3⟩, _⟩ | ⟨p, hp, ⟨g1, g2, g3⟩, _⟩
  · exfalso
    rcases h with hd | ⟨n, hn⟩
    · exact h1 hd
    · exact h2 n hn
  · refine ⟨p ++ [Event.printed pressEnterMsg],
      [Event.printed "Cleaning up.", Event.deleteContainerCall,
       Event.removedLocalFile w.fileName], ?_, ?_, ?_, ?_, ?_, ?_⟩
    · rw [hp]
      simp [cleanupTail]
    · simp only [List.mem_append, List.mem_singleton]
      rintro (hh | hh)
      · exact g1 hh
      · simp at hh
    · intro n
      simp only [List.mem_append, List.mem_singleton]
      rintro (hh | hh)
      · exact g2 n hh
      · simp at hh
    · simp only [List.mem_append, List.mem_singleton]
      rintro (hh | hh)
      · exact g3 hh
      · simp at hh
    · simp
    · exact ⟨w.fileName, by simp⟩

/-- C9: the error returned by the Download call is never inspected:
the run is identical whatever Download returns (it is overwritten by
the body-read result before the handler runs), and whenever the
download request happens the response is dereferenced via `Body` in
the same step regardless. -/
theorem c9_download_error_shadowed (w : World) (e e' : Option GoError) :
    mainRun (setDownloadError w e) = mainRun (setDownloadError w e') ∧
    (Event.downloadCall ∈ (mainRun w).1 →
      Event.calledBody ∈ (mainRun w).1) := by
  refine ⟨rfl, fun hd => ?_⟩
  obtain ⟨taken, rest, hsplit, htrace⟩ := runSteps_trace (mainSteps w)
  have htr : (mainRun w).1 = (taken.map StepResult.events).flatten := htrace
  rw [htr] at hd ⊢
  rw [List.mem_flatten] at hd ⊢
  obtain ⟨l, hl, hdl⟩ := hd
  obtain ⟨s, hst, rfl⟩ := List.mem_map.mp hl
  have hsm : s ∈ mainSteps w := by
    rw [← hsplit]
    exact List.mem_append_left rest hst
  exact ⟨s.events, List.mem_map.mpr ⟨s, hst, rfl⟩,
    mainSteps_download_body w s hsm hdl⟩

/-- C10: a failure to open credentials.json is not fatal: the program
prints the open error, unconditionally prints the success message,
ignores the read and unmarshal errors, and terminates only later via
the empty-credential-field check. -/
theorem c10_open_error_nonfatal (w : World) (msg : String)
    (h : w.credOpenError = some msg) :
    (mainRun w).1 = [Event.printed "Azure Blob Storage quick start sample",
      Event.printed msg,
      Event.printed "Successfully loading credentials.json"] ∧
    (∀ r u, mainRun (setReadErrors w r u) = mainRun w) ∧
    (mainRun w).2 = Outcome.fatal
      "Either the AzureStorageAccountName or AzureStorageAccountKey variable is empty" := by
  have hcred : loadedCredentials w = ⟨"", ""⟩ := by
    unfold loadedCredentials
    rw [h]
  have hcond : (loadedCredentials w).azureStorageAccountName.length = 0 ∨
      (loadedCredentials w).azureStorageAccountKey.length = 0 := by
    rw [hcred]
    exact Or.inl rfl
  refine ⟨?_, fun r u => rfl, ?_⟩
  · unfold mainRun mainSteps mainStepsPre
    rw [if_pos hcond, h]
    rfl
  · unfold mainRun mainSteps mainStepsPre
    rw [if_pos hcond]
    rfl

/-! ## Witnesses -/

/-- C1 witness at a concrete payload and the program's options. -/
theorem c1_witness :
    downloadRange (uploadBlob (fun _ => none) "blob" [1, 2, 3]
      mainUploadOptions) "blob" mainDownloadOffset mainDownloadCount =
      some [1, 2, 3] :=
  (c1_roundtrip (fun _ => none) "blob" [1, 2, 3] mainUploadOptions
    (by decide)).1

/-- C2 witness at the recoverable service code. -/
theorem c2_witness :
    handleErrors (some (GoError.storageError
      serviceCodeContainerAlreadyExists)) = HandleResult.returned :=
  (c2_handleErrors_recoverable
    (GoError.storageError serviceCodeContainerAlreadyExists)).mpr rfl

/-- C3 witness at a small concrete payload. -/
theorem c3_witness :
    uploadFileToBlockBlob [0, 1, 2] mainUploadOptions =
      UploadPlan.singleShot [0, 1, 2] :=
  (c3_chunked_upload [0, 1, 2] mainUploadOptions (by decide)).1 (by decide)

/-- C4 witness: three blobs listed with page size two. -/
theorem c4_witness : listAllBlobs ["a", "b", "c"] 2 = ["a", "b", "c"] :=
  (c4_pagination ["a", "b", "c"] 2 (by decide)).1

/-- C5 witness at a concrete store. -/
theorem c5_witness :
    downloadRange (fun _ => some [1, 2]) "b" mainDownloadOffset
      mainDownloadCount = some [1, 2] :=
  (c5_download_retry (fun _ => some [1, 2]) "b" [1, 2] [] rfl).1

/-- C6 witness: a world whose credentials parse to empty fields. -/
theorem c6_witness :
    (mainRun emptyCredWorld).2 = Outcome.fatal
      "Either the AzureStorageAccountName or AzureStorageAccountKey variable is empty" :=
  (c6_config_empty_fatal emptyCredWorld (Or.inl rfl)).1

/-- C8 witness: the benign run's trace splits at the gate. -/
theorem c8_witness :
    ∃ pre post, (mainRun benignWorld).1 =
      pre ++ Event.stdinReadLine :: post ∧
      Event.deleteContainerCall ∉ pre ∧
      (∀ n, Event.removedLocalFile n ∉ pre) ∧
      Event.stdinReadLine ∉ pre ∧
      Event.deleteContainerCall ∈ post ∧
      ∃ n, Event.removedLocalFile n ∈ post :=
  c8_cleanup_after_gate benignWorld (Or.inl (by decide))

/-- C9 witness: the benign run dereferences the download body. -/
theorem c9_witness : Event.calledBody ∈ (mainRun benignWorld).1 :=
  (c9_download_error_shadowed benignWorld none none).2 (by decide)

/-- C10 witness: a concrete world with a failing credentials open. -/
theorem c10_witness :
    (mainRun openFailWorld).2 = Outcome.fatal
      "Either the AzureStorageAccountName or AzureStorageAccountKey variable is empty" :=
  (c10_open_error_nonfatal openFailWorld
    "open credentials.json: no such file or directory" rfl).2.2

end AzureQuickStart
